import Mathlib

set_option linter.unusedVariables false

/-!
Verification of the qualia-arc-protocol core: a shallow embedding of
`src/anomaly_tracker.py` (leaky integrator, dynamic threshold) and
`src/miracle_decay.py` (time-locked decay state machine), with theorems
checking the natural-language specification against the code.

Modelling conventions:
* Python floats are modelled as rationals `ℚ`; turn counters as `ℕ`.
* `np.exp` appears only in telemetry (the logged `decay_factor` and the
  projected integrals); it never influences control flow, so it is passed
  to `tick` as an uninterpreted parameter `expf : ℚ → ℚ` and all theorems
  hold for every `expf`.
* `np.linalg.norm` returns a possibly irrational square root; the distance
  is characterized relationally by `0 ≤ d ∧ d * d = Σ diff²`.
* The presentation-only `message` strings of the Python dicts, and the
  4-digit rounding applied to the logged `decay_factor`, are omitted.
-/

/-- The phases of `class MiraclePhase` in `miracle_decay.py`. -/
inductive MiraclePhase where
  | none
  | pending
  | confirmed
  | cancelled
  | hijack
deriving DecidableEq

/-- Records appended to `decay_log` / `history` (the dict entries built in
`MiracleDecayManager.tick`; `message` strings omitted). -/
inductive DecayEvent where
  | cancelEv (turn : ℕ) (d_dot theta_cancel : ℚ)
      (hijack_suspected integrals_unchanged : Bool)
  | tickEv (turn : ℕ) (d_dot decay_factor : ℚ) (projected_integrals : List ℚ)
  | confirmEv (integrals_before integrals_after : List ℚ) (rho : ℚ)
deriving DecidableEq

/-- `class MiracleDecayState` of `miracle_decay.py`. -/
structure MiracleDecayState where
  phase : MiraclePhase
  turns_elapsed : ℕ
  initial_integrals : List ℚ
  decay_log : List DecayEvent
deriving DecidableEq

/-- The default `MiracleDecayState()`: phase NONE, 0 turns,
`np.zeros(4)`, empty log. -/
def initState : MiracleDecayState :=
  ⟨.none, 0, List.replicate 4 0, []⟩

/-- `class MiracleDecayManager`: configuration plus mutable state and the
cumulative `history` list. -/
structure MiracleDecayManager where
  k_max : ℕ
  theta_cancel : ℚ
  rho : ℚ
  kappa : ℚ
  state : MiracleDecayState
  history : List DecayEvent
deriving DecidableEq

/-- `MiracleDecayManager.__init__`. -/
def MiracleDecayManager.init (k_max : ℕ) (theta_cancel rho kappa : ℚ) :
    MiracleDecayManager :=
  ⟨k_max, theta_cancel, rho, kappa, initState, []⟩

/-- Result dictionary of `attempt_miracle` (`result` key as constructor,
diagnostic values as payload). -/
inductive AttemptResult where
  | alreadyPending (turns_remaining : ℕ)
  | pending (g_value g_min : ℚ) (k_max : ℕ)
  | rejected (g_value g_min v_consistency : ℚ)
deriving DecidableEq

/-- Result dictionary of `tick` (`action` key as constructor). -/
inductive TickResult where
  | noop (phase : MiraclePhase)
  | rollback (phase : MiraclePhase) (hijack_suspected : Bool)
  | applyReset (new_integrals integrals_before integrals_after : List ℚ)
  | monitoring (turns_remaining : ℕ) (decay_factor : ℚ)
deriving DecidableEq

/-- Whether a tick result is the `action: monitoring` case. -/
def TickResult.isMonitoring : TickResult → Bool
  | .monitoring _ _ => true
  | _ => false

/-- `MiracleDecayManager.attempt_miracle`: blocked while PENDING; admitted
when `g_value > g_min and v_consistency > 0.7`, capturing the integrals
snapshot and clearing the per-cycle log; otherwise rejected. -/
def attempt_miracle (m : MiracleDecayManager) (integrals : List ℚ)
    (g_value g_min v_consistency : ℚ) : MiracleDecayManager × AttemptResult :=
  if m.state.phase = .pending then
    (m, .alreadyPending (m.k_max - m.state.turns_elapsed))
  else if g_value > g_min ∧ v_consistency > 7/10 then
    ({ m with state := ⟨.pending, 0, integrals, []⟩ },
     .pending g_value g_min m.k_max)
  else
    (m, .rejected g_value g_min v_consistency)

/-- `MiracleDecayManager.tick`. `expf` models `np.exp` (telemetry only).
No-op unless PENDING; increments `turns_elapsed`; recurrence
(`d_dot > theta_cancel`) aborts to HIJACK_DETECTED when
`turns_elapsed ≤ k_max // 2` else CANCELLED, logging to both logs;
otherwise logs a monitoring entry and, at `turns_elapsed ≥ k_max`,
confirms with `initial_integrals * (1 - rho)`. -/
def tick (expf : ℚ → ℚ) (m : MiracleDecayManager) (integrals : List ℚ)
    (d_dot : ℚ) : MiracleDecayManager × TickResult :=
  if m.state.phase ≠ .pending then
    (m, .noop m.state.phase)
  else
    let turns := m.state.turns_elapsed + 1
    if d_dot > m.theta_cancel then
      let is_hijack := decide (turns ≤ m.k_max / 2)
      let phase' : MiraclePhase := if is_hijack then .hijack else .cancelled
      let entry := DecayEvent.cancelEv turns d_dot m.theta_cancel is_hijack true
      ({ m with
          state := ⟨phase', turns, m.state.initial_integrals,
                    m.state.decay_log ++ [entry]⟩,
          history := m.history ++ [entry] },
       .rollback phase' is_hijack)
    else
      let decay_factor := expf (-(m.kappa * (turns : ℚ)))
      let projected := m.state.initial_integrals.map (fun x => x * decay_factor)
      let entry := DecayEvent.tickEv turns d_dot decay_factor projected
      if turns ≥ m.k_max then
        let confirmed := m.state.initial_integrals.map (fun x => x * (1 - m.rho))
        ({ m with
            state := ⟨.confirmed, turns, m.state.initial_integrals,
                      m.state.decay_log ++ [entry]⟩,
            history := m.history ++
              [DecayEvent.confirmEv m.state.initial_integrals confirmed m.rho] },
         .applyReset confirmed m.state.initial_integrals confirmed)
      else
        ({ m with
            state := ⟨.pending, turns, m.state.initial_integrals,
                      m.state.decay_log ++ [entry]⟩ },
         .monitoring (m.k_max - turns) decay_factor)

/-- `MiracleDecayManager.reset`: fresh default state, `history` untouched. -/
def reset (m : MiracleDecayManager) : MiracleDecayManager :=
  { m with state := initState }

/-- `MiracleDecayManager.get_phase`. -/
def get_phase (m : MiracleDecayManager) : MiraclePhase :=
  m.state.phase

/-- `MiracleDecayManager.get_history`. -/
def get_history (m : MiracleDecayManager) : List DecayEvent :=
  m.history

/-- Iterating `tick` over a list of `d_dot` observations with a fixed
`integrals` argument, collecting the results (the per-turn caller loop of
the source's scenario driver). -/
def runTicks (expf : ℚ → ℚ) (integrals : List ℚ) :
    MiracleDecayManager → List ℚ → MiracleDecayManager × List TickResult
  | m, [] => (m, [])
  | m, d :: ds =>
    let p := tick expf m integrals d
    let q := runTicks expf integrals p.1 ds
    (q.1, p.2 :: q.2)

/-- `class AnomalyTracker` of `anomaly_tracker.py`: parameters and the
mutable anomaly score. -/
structure AnomalyTracker where
  tau : ℚ
  g0 : ℚ
  alpha : ℚ
  a_anom : ℚ
deriving DecidableEq

/-- `np.array(d_obs) - np.array(d_hat)` with numpy's 1-D broadcasting:
equal lengths subtract pointwise; a length-1 operand broadcasts across the
other; any other shape pair raises `ValueError` (modelled as `none`). -/
def diffVec (obs pred : List ℚ) : Option (List ℚ) :=
  if obs.length = pred.length then
    some (List.zipWith (fun a b => a - b) obs pred)
  else if obs.length = 1 then
    some (pred.map (fun y => obs.headI - y))
  else if pred.length = 1 then
    some (obs.map (fun x => x - pred.headI))
  else
    none

/-- Sum of squares of a vector (the square of `np.linalg.norm`). -/
def sumSq (v : List ℚ) : ℚ :=
  (v.map (fun x => x * x)).sum

/-- `d` is the Euclidean norm of `v`: nonnegative with `d² = Σ v_i²`. -/
def IsNorm (d : ℚ) (v : List ℚ) : Prop :=
  0 ≤ d ∧ d * d = sumSq v

/-- `d` is the Euclidean distance `np.linalg.norm(obs - pred)`. -/
def IsDist (d : ℚ) (obs pred : List ℚ) : Prop :=
  ∃ v, diffVec obs pred = some v ∧ IsNorm d v

/-- The leaky-integrator update
`a_anom ← (1 - tau) * a_anom + tau * distance`. -/
def leakyStep (tau a d : ℚ) : ℚ :=
  (1 - tau) * a + tau * d

/-- One `AnomalyTracker.update_anomaly(obs, pred)` call relating the state
before to the state after: the numpy subtraction must succeed, `d` is its
Euclidean norm, and only `a_anom` changes, by `leakyStep`. -/
def UpdateAnomaly (t : AnomalyTracker) (obs pred : List ℚ)
    (t' : AnomalyTracker) : Prop :=
  ∃ v d, diffVec obs pred = some v ∧ IsNorm d v ∧
    t' = { t with a_anom := leakyStep t.tau t.a_anom d }

/-- `n` successive `update_anomaly(obs, pred)` calls starting from `t`. -/
inductive UpdateSeq (obs pred : List ℚ) (t : AnomalyTracker) :
    ℕ → AnomalyTracker → Prop where
  | zero : UpdateSeq obs pred t 0 t
  | succ (t' t'' : AnomalyTracker) (n : ℕ) :
      UpdateSeq obs pred t n t' → UpdateAnomaly t' obs pred t'' →
      UpdateSeq obs pred t (n + 1) t''

/-- `AnomalyTracker.calculate_g_min`:
`g_min = g0 + (1 - g0) * a_anom / (a_anom + alpha)`. -/
def calculate_g_min (t : AnomalyTracker) : ℚ :=
  t.g0 + (1 - t.g0) * (t.a_anom / (t.a_anom + t.alpha))

/-- Shorthand for the telemetry decay factor `exp(-kappa * k)` logged on a
monitoring tick. -/
def decayFactor (expf : ℚ → ℚ) (kappa : ℚ) (k : ℕ) : ℚ :=
  expf (-(kappa * (k : ℚ)))

/-- A `tick` call outside PENDING returns the current phase with no action
and leaves the manager untouched. -/
theorem tick_noop (expf : ℚ → ℚ) (m : MiracleDecayManager) (ints : List ℚ)
    (d : ℚ) (h : m.state.phase ≠ .pending) :
    tick expf m ints d = (m, .noop m.state.phase) := by
  simp [tick, h]

/-- A PENDING `tick` with `d_dot ≤ theta_cancel` short of the window end:
turn counter advances, phase stays PENDING, the monitoring entry goes to
`decay_log` only. -/
theorem tick_monitor (expf : ℚ → ℚ) (m : MiracleDecayManager) (ints : List ℚ)
    (d : ℚ) (hp : m.state.phase = .pending) (hd : d ≤ m.theta_cancel)
    (ht : m.state.turns_elapsed + 1 < m.k_max) :
    tick expf m ints d =
      ({ m with state :=
          ⟨.pending, m.state.turns_elapsed + 1, m.state.initial_integrals,
           m.state.decay_log ++
             [DecayEvent.tickEv (m.state.turns_elapsed + 1) d
               (decayFactor expf m.kappa (m.state.turns_elapsed + 1))
               (m.state.initial_integrals.map
                 (fun x => x * decayFactor expf m.kappa (m.state.turns_elapsed + 1)))]⟩ },
       .monitoring (m.k_max - (m.state.turns_elapsed + 1))
         (decayFactor expf m.kappa (m.state.turns_elapsed + 1))) := by
  simp [tick, hp, not_lt.mpr hd, Nat.not_le.mpr ht, decayFactor]

/-- A PENDING `tick` with `d_dot ≤ theta_cancel` reaching `k_max`: phase
becomes CONFIRMED, the monitoring entry goes to `decay_log`, a confirmation
record goes to `history`, and the result carries
`initial_integrals * (1 - rho)`. -/
theorem tick_confirm (expf : ℚ → ℚ) (m : MiracleDecayManager) (ints : List ℚ)
    (d : ℚ) (hp : m.state.phase = .pending) (hd : d ≤ m.theta_cancel)
    (ht : m.k_max ≤ m.state.turns_elapsed + 1) :
    tick expf m ints d =
      ({ m with
          state :=
            ⟨.confirmed, m.state.turns_elapsed + 1, m.state.initial_integrals,
             m.state.decay_log ++
               [DecayEvent.tickEv (m.state.turns_elapsed + 1) d
                 (decayFactor expf m.kappa (m.state.turns_elapsed + 1))
                 (m.state.initial_integrals.map
                   (fun x => x * decayFactor expf m.kappa (m.state.turns_elapsed + 1)))]⟩,
          history := m.history ++
            [DecayEvent.confirmEv m.state.initial_integrals
              (m.state.initial_integrals.map (fun x => x * (1 - m.rho))) m.rho] },
       .applyReset (m.state.initial_integrals.map (fun x => x * (1 - m.rho)))
         m.state.initial_integrals
         (m.state.initial_integrals.map (fun x => x * (1 - m.rho)))) := by
  simp [tick, hp, not_lt.mpr hd, ht, decayFactor]

/-- A PENDING `tick` with `d_dot > theta_cancel`: abort. The phase becomes
HIJACK_DETECTED when the turn is within the first half of the window, else
CANCELLED; one cancellation record goes to both logs; the result is a
rollback carrying no integrals. -/
theorem tick_cancel (expf : ℚ → ℚ) (m : MiracleDecayManager) (ints : List ℚ)
    (d : ℚ) (hp : m.state.phase = .pending) (hd : d > m.theta_cancel) :
    tick expf m ints d =
      ({ m with
          state :=
            ⟨(if m.state.turns_elapsed + 1 ≤ m.k_max / 2 then .hijack else .cancelled),
             m.state.turns_elapsed + 1, m.state.initial_integrals,
             m.state.decay_log ++
               [DecayEvent.cancelEv (m.state.turns_elapsed + 1) d m.theta_cancel
                 (decide (m.state.turns_elapsed + 1 ≤ m.k_max / 2)) true]⟩,
          history := m.history ++
            [DecayEvent.cancelEv (m.state.turns_elapsed + 1) d m.theta_cancel
              (decide (m.state.turns_elapsed + 1 ≤ m.k_max / 2)) true] },
       .rollback
         (if m.state.turns_elapsed + 1 ≤ m.k_max / 2 then .hijack else .cancelled)
         (decide (m.state.turns_elapsed + 1 ≤ m.k_max / 2))) := by
  by_cases hh : m.state.turns_elapsed + 1 ≤ m.k_max / 2 <;>
    simp [tick, hp, hd, hh]

/-- Running `tick` over a prefix of stable observations that stays strictly
inside the window: the manager remains PENDING with the same configuration,
baseline and cumulative history, the turn counter advances by the number of
ticks, and every result is a monitoring result. -/
theorem runTicks_monitor (expf : ℚ → ℚ) (ints : List ℚ) :
    ∀ (ds : List ℚ) (m : MiracleDecayManager),
      m.state.phase = .pending →
      (∀ d ∈ ds, d ≤ m.theta_cancel) →
      m.state.turns_elapsed + ds.length < m.k_max →
      (runTicks expf ints m ds).1.k_max = m.k_max ∧
      (runTicks expf ints m ds).1.theta_cancel = m.theta_cancel ∧
      (runTicks expf ints m ds).1.rho = m.rho ∧
      (runTicks expf ints m ds).1.kappa = m.kappa ∧
      (runTicks expf ints m ds).1.state.phase = .pending ∧
      (runTicks expf ints m ds).1.state.turns_elapsed =
        m.state.turns_elapsed + ds.length ∧
      (runTicks expf ints m ds).1.state.initial_integrals =
        m.state.initial_integrals ∧
      (runTicks expf ints m ds).1.history = m.history ∧
      (runTicks expf ints m ds).2.length = ds.length ∧
      (∀ r ∈ (runTicks expf ints m ds).2, r.isMonitoring = true) := by
  intro ds
  induction ds with
  | nil =>
    intro m hp hall hlt
    simp [runTicks, hp]
  | cons d ds ih =>
    intro m hp hall hlt
    have hd : d ≤ m.theta_cancel := hall d (by simp)
    have ht : m.state.turns_elapsed + 1 < m.k_max := by
      simp only [List.length_cons] at hlt
      omega
    have hstep := tick_monitor expf m ints d hp hd ht
    simp only [runTicks, hstep]
    set m1 : MiracleDecayManager :=
      { m with state :=
          ⟨.pending, m.state.turns_elapsed + 1, m.state.initial_integrals,
           m.state.decay_log ++
             [DecayEvent.tickEv (m.state.turns_elapsed + 1) d
               (decayFactor expf m.kappa (m.state.turns_elapsed + 1))
               (m.state.initial_integrals.map
                 (fun x => x * decayFactor expf m.kappa (m.state.turns_elapsed + 1)))]⟩ }
      with hm1
    have h1 : m1.state.phase = .pending := by simp [hm1]
    have h2 : ∀ x ∈ ds, x ≤ m1.theta_cancel := by
      intro x hx
      have : m1.theta_cancel = m.theta_cancel := by simp [hm1]
      rw [this]
      exact hall x (by simp [hx])
    have h3 : m1.state.turns_elapsed + ds.length < m1.k_max := by
      have hk : m1.k_max = m.k_max := by simp [hm1]
      have htu : m1.state.turns_elapsed = m.state.turns_elapsed + 1 := by simp [hm1]
      simp only [List.length_cons] at hlt
      omega
    obtain ⟨i1, i2, i3, i4, i5, i6, i7, i8, i9, i10⟩ := ih m1 h1 h2 h3
    refine ⟨i1, i2, i3, i4, i5, ?_, i7, i8, by simp [i9], ?_⟩
    · rw [i6]
      show m.state.turns_elapsed + 1 + ds.length = _
      simp only [List.length_cons]
      omega
    · intro r hr
      simp only [List.mem_cons] at hr
      rcases hr with hr | hr
      · rw [hr]; rfl
      · exact i10 r hr

/-- `runTicks` splits over list append. -/
theorem runTicks_append (expf : ℚ → ℚ) (ints : List ℚ) (l1 l2 : List ℚ) :
    ∀ m, runTicks expf ints m (l1 ++ l2) =
      ((runTicks expf ints (runTicks expf ints m l1).1 l2).1,
       (runTicks expf ints m l1).2 ++
         (runTicks expf ints (runTicks expf ints m l1).1 l2).2) := by
  induction l1 with
  | nil => intro m; simp [runTicks]
  | cons d l1 ih =>
    intro m
    simp only [List.cons_append, runTicks, List.append_eq, ih]

/-- Completing the window from PENDING: a nonempty run of stable
observations whose length exactly exhausts the window confirms on the last
tick and only there, the results being monitoring results followed by one
`applyReset` carrying `initial_integrals * (1 - rho)`; a confirmation
record is appended to the cumulative history. -/
theorem runTicks_window (expf : ℚ → ℚ) (ints : List ℚ) (ds : List ℚ)
    (m : MiracleDecayManager) (hp : m.state.phase = .pending)
    (hall : ∀ d ∈ ds, d ≤ m.theta_cancel) (hne : ds ≠ [])
    (hlen : m.state.turns_elapsed + ds.length = m.k_max) :
    (runTicks expf ints m ds).1.state.phase = .confirmed ∧
    (runTicks expf ints m ds).1.state.initial_integrals =
      m.state.initial_integrals ∧
    (runTicks expf ints m ds).2.length = ds.length ∧
    (∀ r ∈ (runTicks expf ints m ds).2.dropLast, r.isMonitoring = true) ∧
    (runTicks expf ints m ds).2.getLast? =
      some (.applyReset
        (m.state.initial_integrals.map (fun x => x * (1 - m.rho)))
        m.state.initial_integrals
        (m.state.initial_integrals.map (fun x => x * (1 - m.rho)))) ∧
    (runTicks expf ints m ds).1.history = m.history ++
      [DecayEvent.confirmEv m.state.initial_integrals
        (m.state.initial_integrals.map (fun x => x * (1 - m.rho))) m.rho] := by
  obtain ⟨l1, dl, rfl⟩ : ∃ l1 dl, ds = l1 ++ [dl] :=
    ⟨ds.dropLast, ds.getLast hne, (List.dropLast_append_getLast hne).symm⟩
  have hlen' : m.state.turns_elapsed + l1.length + 1 = m.k_max := by
    simp only [List.length_append, List.length_cons, List.length_nil] at hlen
    omega
  obtain ⟨i1, i2, i3, i4, i5, i6, i7, i8, i9, i10⟩ :=
    runTicks_monitor expf ints l1 m hp
      (fun d hd => hall d (by simp [hd])) (by omega)
  set m2 := (runTicks expf ints m l1).1 with hm2
  have hdl : dl ≤ m2.theta_cancel := by
    rw [i2]; exact hall dl (by simp)
  have hk : m2.k_max ≤ m2.state.turns_elapsed + 1 := by
    rw [i1, i6]; omega
  have hstep := tick_confirm expf m2 ints dl i5 hdl hk
  have hsingle : runTicks expf ints m2 [dl] =
      ((tick expf m2 ints dl).1, [(tick expf m2 ints dl).2]) := by
    simp [runTicks]
  rw [runTicks_append, ← hm2, hsingle, hstep]
  refine ⟨rfl, ?_, ?_, ?_, ?_, ?_⟩
  · exact i7
  · simp only [List.length_append, List.length_cons, List.length_nil, i9]
  · intro r hr
    rw [List.dropLast_concat] at hr
    exact i10 r hr
  · rw [List.getLast?_concat]
    simp only [i7, i3]
  · simp only [i8, i7, i3]

/-- `attempt_miracle` outside PENDING with the admission conditions met:
transition to PENDING with the snapshot captured and the per-cycle log
cleared. -/
theorem attempt_success (m : MiracleDecayManager) (ints : List ℚ)
    (g gm v : ℚ) (hp : m.state.phase ≠ .pending) (hg : g > gm)
    (hv : v > 7/10) :
    attempt_miracle m ints g gm v =
      ({ m with state := ⟨.pending, 0, ints, []⟩ }, .pending g gm m.k_max) := by
  simp [attempt_miracle, hp, hg, hv]

/-- C1 (confirmed). For every configuration with `k_max ≥ 1`,
`rho ∈ [0,1]` and every baseline vector: from the Idle/NONE phase, a
successful `attempt_miracle` followed by exactly `k_max` ticks each with
`d_dot ≤ theta_cancel` yields a Confirmed transition exactly once — every
result before the `k_max`-th is a monitoring result and the `k_max`-th is
the single `apply_reset` result — and the returned `new_integrals` equal
the captured baseline snapshot multiplied elementwise by `1 - rho`. -/
theorem c1_window_completion (expf : ℚ → ℚ) (m : MiracleDecayManager)
    (baseline ints : List ℚ) (g gm v : ℚ) (ds : List ℚ)
    (hk : 1 ≤ m.k_max) (hrho0 : 0 ≤ m.rho) (hrho1 : m.rho ≤ 1)
    (hidle : m.state.phase = .none) (hg : g > gm) (hv : v > 7/10)
    (hlen : ds.length = m.k_max) (hall : ∀ d ∈ ds, d ≤ m.theta_cancel) :
    (attempt_miracle m baseline g gm v).2 = .pending g gm m.k_max ∧
    (runTicks expf ints (attempt_miracle m baseline g gm v).1 ds).1.state.phase
      = .confirmed ∧
    (runTicks expf ints (attempt_miracle m baseline g gm v).1 ds).2.length
      = m.k_max ∧
    (∀ r ∈ (runTicks expf ints (attempt_miracle m baseline g gm v).1 ds).2.dropLast,
      r.isMonitoring = true) ∧
    (runTicks expf ints (attempt_miracle m baseline g gm v).1 ds).2.getLast? =
      some (.applyReset (baseline.map (fun x => x * (1 - m.rho))) baseline
        (baseline.map (fun x => x * (1 - m.rho)))) := by
  have hp : m.state.phase ≠ .pending := by rw [hidle]; intro h; cases h
  have ha := attempt_success m baseline g gm v hp hg hv
  rw [ha]
  have hne : ds ≠ [] := by
    intro h
    rw [h] at hlen
    simp at hlen
    omega
  obtain ⟨w1, w2, w3, w4, w5, w6⟩ :=
    runTicks_window expf ints ds { m with state := ⟨.pending, 0, baseline, []⟩ }
      rfl hall hne (by simpa using hlen)
  exact ⟨rfl, w1, by rw [w3, hlen], w4, w5⟩

/-- Closed instance of the C1 theorem: `k_max = 2`, baseline `[1,2,3,4]`,
`rho = 3/10`, two stable ticks confirm with the 30%-reduced integrals. -/
theorem c1_witness :
    (attempt_miracle (MiracleDecayManager.init 2 (1/20) (3/10) (1/2))
      [1, 2, 3, 4] 1 0 1).2 = .pending 1 0 2 ∧
    (runTicks (fun _ => 1) [1, 2, 3, 4]
      (attempt_miracle (MiracleDecayManager.init 2 (1/20) (3/10) (1/2))
        [1, 2, 3, 4] 1 0 1).1 [0, 0]).1.state.phase = .confirmed ∧
    (runTicks (fun _ => 1) [1, 2, 3, 4]
      (attempt_miracle (MiracleDecayManager.init 2 (1/20) (3/10) (1/2))
        [1, 2, 3, 4] 1 0 1).1 [0, 0]).2.length = 2 ∧
    (∀ r ∈ (runTicks (fun _ => 1) [1, 2, 3, 4]
      (attempt_miracle (MiracleDecayManager.init 2 (1/20) (3/10) (1/2))
        [1, 2, 3, 4] 1 0 1).1 [0, 0]).2.dropLast, r.isMonitoring = true) ∧
    (runTicks (fun _ => 1) [1, 2, 3, 4]
      (attempt_miracle (MiracleDecayManager.init 2 (1/20) (3/10) (1/2))
        [1, 2, 3, 4] 1 0 1).1 [0, 0]).2.getLast? =
      some (.applyReset (([1, 2, 3, 4] : List ℚ).map (fun x => x * (1 - 3/10)))
        [1, 2, 3, 4] (([1, 2, 3, 4] : List ℚ).map (fun x => x * (1 - 3/10)))) :=
  c1_window_completion (fun _ => 1) (MiracleDecayManager.init 2 (1/20) (3/10) (1/2))
    [1, 2, 3, 4] [1, 2, 3, 4] 1 0 1 [0, 0]
    (by norm_num [MiracleDecayManager.init])
    (by norm_num [MiracleDecayManager.init])
    (by norm_num [MiracleDecayManager.init]) rfl (by norm_num) (by norm_num) rfl
    (by intro x hx; fin_cases hx <;> norm_num [MiracleDecayManager.init])

/-- C2 (confirmed). In a Pending cycle admitted from Idle, if the `m`-th
tick (after `m - 1` stable ticks) observes `d_dot > theta_cancel`, the
phase becomes HIJACK_DETECTED when `m ≤ ⌊k_max / 2⌋` and CANCELLED when
`m > ⌊k_max / 2⌋`; the rollback result carries no replacement integrals
(the only result constructor carrying integrals is `applyReset`) and the
captured snapshot is left as the original baseline: no modification is
ever applied. -/
theorem c2_early_abort (expf : ℚ → ℚ) (m : MiracleDecayManager)
    (baseline ints : List ℚ) (g gm v : ℚ) (ds : List ℚ) (d : ℚ)
    (hidle : m.state.phase = .none) (hg : g > gm) (hv : v > 7/10)
    (hall : ∀ x ∈ ds, x ≤ m.theta_cancel) (hm : ds.length + 1 ≤ m.k_max)
    (hd : d > m.theta_cancel) :
    (ds.length + 1 ≤ m.k_max / 2 →
      (tick expf (runTicks expf ints (attempt_miracle m baseline g gm v).1 ds).1
        ints d).1.state.phase = .hijack ∧
      (tick expf (runTicks expf ints (attempt_miracle m baseline g gm v).1 ds).1
        ints d).2 = .rollback .hijack true) ∧
    (m.k_max / 2 < ds.length + 1 →
      (tick expf (runTicks expf ints (attempt_miracle m baseline g gm v).1 ds).1
        ints d).1.state.phase = .cancelled ∧
      (tick expf (runTicks expf ints (attempt_miracle m baseline g gm v).1 ds).1
        ints d).2 = .rollback .cancelled false) ∧
    (tick expf (runTicks expf ints (attempt_miracle m baseline g gm v).1 ds).1
      ints d).1.state.initial_integrals = baseline ∧
    (∀ ni bi ai,
      (tick expf (runTicks expf ints (attempt_miracle m baseline g gm v).1 ds).1
        ints d).2 ≠ .applyReset ni bi ai) := by
  have hp : m.state.phase ≠ .pending := by rw [hidle]; intro h; cases h
  rw [attempt_success m baseline g gm v hp hg hv]
  obtain ⟨i1, i2, i3, i4, i5, i6, i7, i8, i9, i10⟩ :=
    runTicks_monitor expf ints ds { m with state := ⟨.pending, 0, baseline, []⟩ }
      rfl hall (by simp; omega)
  set m2 := (runTicks expf ints { m with state := ⟨.pending, 0, baseline, []⟩ } ds).1
    with hm2
  have hd2 : d > m2.theta_cancel := by rw [i2]; exact hd
  have hstep := tick_cancel expf m2 ints d i5 hd2
  have hturn : m2.state.turns_elapsed + 1 = ds.length + 1 := by
    rw [i6]; simp
  have hkx : m2.k_max = m.k_max := i1
  rw [hstep]
  refine ⟨?_, ?_, ?_, ?_⟩
  · intro hh
    have hh2 : m2.state.turns_elapsed + 1 ≤ m2.k_max / 2 := by
      rw [hturn, hkx]; exact hh
    simp [hh2]
  · intro hh
    have hh2 : ¬ (m2.state.turns_elapsed + 1 ≤ m2.k_max / 2) := by
      rw [hturn, hkx]; omega
    simp [hh2]
  · simpa using i7
  · intro ni bi ai h
    by_cases hh : m2.state.turns_elapsed + 1 ≤ m2.k_max / 2 <;>
      simp [hh] at h

/-- Closed instance of the C2 theorem: `k_max = 5`, two stable ticks, then
a recurrence on turn 3 (`3 > ⌊5/2⌋ = 2`): CANCELLED, no integrals in the
result, snapshot untouched. -/
theorem c2_witness :
    ((2 : ℕ) + 1 ≤ (MiracleDecayManager.init 5 (1/20) (3/10) (1/2)).k_max / 2 →
      (tick (fun _ => 1) (runTicks (fun _ => 1) [1, 2, 3, 4]
        (attempt_miracle (MiracleDecayManager.init 5 (1/20) (3/10) (1/2))
          [1, 2, 3, 4] 1 0 1).1 [0, 0]).1 [1, 2, 3, 4] (1/10)).1.state.phase
        = .hijack ∧
      (tick (fun _ => 1) (runTicks (fun _ => 1) [1, 2, 3, 4]
        (attempt_miracle (MiracleDecayManager.init 5 (1/20) (3/10) (1/2))
          [1, 2, 3, 4] 1 0 1).1 [0, 0]).1 [1, 2, 3, 4] (1/10)).2
        = .rollback .hijack true) ∧
    ((MiracleDecayManager.init 5 (1/20) (3/10) (1/2)).k_max / 2 < 2 + 1 →
      (tick (fun _ => 1) (runTicks (fun _ => 1) [1, 2, 3, 4]
        (attempt_miracle (MiracleDecayManager.init 5 (1/20) (3/10) (1/2))
          [1, 2, 3, 4] 1 0 1).1 [0, 0]).1 [1, 2, 3, 4] (1/10)).1.state.phase
        = .cancelled ∧
      (tick (fun _ => 1) (runTicks (fun _ => 1) [1, 2, 3, 4]
        (attempt_miracle (MiracleDecayManager.init 5 (1/20) (3/10) (1/2))
          [1, 2, 3, 4] 1 0 1).1 [0, 0]).1 [1, 2, 3, 4] (1/10)).2
        = .rollback .cancelled false) ∧
    (tick (fun _ => 1) (runTicks (fun _ => 1) [1, 2, 3, 4]
      (attempt_miracle (MiracleDecayManager.init 5 (1/20) (3/10) (1/2))
        [1, 2, 3, 4] 1 0 1).1 [0, 0]).1 [1, 2, 3, 4]
      (1/10)).1.state.initial_integrals = [1, 2, 3, 4] ∧
    (∀ ni bi ai,
      (tick (fun _ => 1) (runTicks (fun _ => 1) [1, 2, 3, 4]
        (attempt_miracle (MiracleDecayManager.init 5 (1/20) (3/10) (1/2))
          [1, 2, 3, 4] 1 0 1).1 [0, 0]).1 [1, 2, 3, 4] (1/10)).2
        ≠ .applyReset ni bi ai) :=
  c2_early_abort (fun _ => 1) (MiracleDecayManager.init 5 (1/20) (3/10) (1/2))
    [1, 2, 3, 4] [1, 2, 3, 4] 1 0 1 [0, 0] (1/10) rfl (by norm_num)
    (by norm_num)
    (by intro x hx; fin_cases hx <;> norm_num [MiracleDecayManager.init])
    (by norm_num [MiracleDecayManager.init])
    (by norm_num [MiracleDecayManager.init])

/-- C3 counterexample. The claim says a new cycle cannot be started from
the terminal phases without an intervening `reset()`. In the code,
`attempt_miracle` only checks for PENDING: here a manager is driven to
CONFIRMED (`k_max = 1`, one stable tick) and a second `attempt_miracle` —
with no `reset()` in between — is admitted and starts a new PENDING cycle. -/
theorem c3_counterexample :
    (tick (fun _ => 1)
      (attempt_miracle (MiracleDecayManager.init 1 (1/20) (3/10) (1/2))
        [1, 2, 3, 4] 1 0 1).1 [1, 2, 3, 4] 0).1.state.phase = .confirmed ∧
    (attempt_miracle
      (tick (fun _ => 1)
        (attempt_miracle (MiracleDecayManager.init 1 (1/20) (3/10) (1/2))
          [1, 2, 3, 4] 1 0 1).1 [1, 2, 3, 4] 0).1
      [5, 6, 7, 8] 1 0 1).2 = .pending 1 0 1 ∧
    (attempt_miracle
      (tick (fun _ => 1)
        (attempt_miracle (MiracleDecayManager.init 1 (1/20) (3/10) (1/2))
          [1, 2, 3, 4] 1 0 1).1 [1, 2, 3, 4] 0).1
      [5, 6, 7, 8] 1 0 1).1.state = ⟨.pending, 0, [5, 6, 7, 8], []⟩ := by
  have e1 : (attempt_miracle (MiracleDecayManager.init 1 (1/20) (3/10) (1/2))
      [1, 2, 3, 4] 1 0 1).1 =
      (⟨1, 1/20, 3/10, 1/2, ⟨.pending, 0, [1, 2, 3, 4], []⟩, []⟩ :
        MiracleDecayManager) := by
    rw [attempt_success _ _ _ _ _ (by decide) (by norm_num) (by norm_num)]
    rfl
  rw [e1]
  have e2 : (tick (fun _ => 1)
      (⟨1, 1/20, 3/10, 1/2, ⟨.pending, 0, [1, 2, 3, 4], []⟩, []⟩ :
        MiracleDecayManager) [1, 2, 3, 4] 0).1 =
      (⟨1, 1/20, 3/10, 1/2,
        ⟨.confirmed, 1, [1, 2, 3, 4],
          [.tickEv 1 0 1 ([1, 2, 3, 4].map (fun x => x * 1))]⟩,
        [.confirmEv [1, 2, 3, 4]
          ([1, 2, 3, 4].map (fun x => x * (1 - 3/10))) (3/10)]⟩ :
        MiracleDecayManager) := by
    rw [tick_confirm _ _ _ _ rfl (show (0:ℚ) ≤ 1/20 by norm_num)
      (Nat.le_refl 1)]
    rfl
  rw [e2]
  rw [attempt_success _ _ _ _ _ (by decide) (by norm_num) (by norm_num)]
  exact ⟨rfl, rfl, rfl⟩

/-- C3 (amended). `attempt_miracle` is blocked only while the phase is
PENDING, where it returns `already_pending` with no state change — a
defined outcome, not an error. From every non-PENDING phase — Idle/NONE
and equally the per-cycle terminal phases CONFIRMED, CANCELLED and
HIJACK_DETECTED — an attempt meeting the admission conditions immediately
starts a new PENDING cycle with no intervening `reset()` required, and an
attempt failing them returns `rejected` with no state change. -/
theorem c3_attempt_gating (m : MiracleDecayManager) (ints : List ℚ)
    (g gm v : ℚ) :
    (m.state.phase = .pending →
      attempt_miracle m ints g gm v =
        (m, .alreadyPending (m.k_max - m.state.turns_elapsed))) ∧
    (m.state.phase ≠ .pending → g > gm → v > 7/10 →
      attempt_miracle m ints g gm v =
        ({ m with state := ⟨.pending, 0, ints, []⟩ }, .pending g gm m.k_max)) ∧
    (m.state.phase ≠ .pending → ¬(g > gm ∧ v > 7/10) →
      attempt_miracle m ints g gm v = (m, .rejected g gm v)) := by
  refine ⟨fun hp => by simp [attempt_miracle, hp],
    fun hp hg hv => attempt_success m ints g gm v hp hg hv,
    fun hp hrej => by simp [attempt_miracle, hp, hrej]⟩

/-- Closed instance of the amended C3 theorem: a PENDING manager rejects a
second attempt unchanged; a CANCELLED manager admits a new attempt without
reset; an Idle manager with failing conditions is rejected unchanged. -/
theorem c3_witness :
    attempt_miracle
      ⟨5, 1/20, 3/10, 1/2, ⟨.pending, 2, [1, 2, 3, 4], []⟩, []⟩
      [9, 9, 9, 9] 1 0 1 =
      (⟨5, 1/20, 3/10, 1/2, ⟨.pending, 2, [1, 2, 3, 4], []⟩, []⟩,
       .alreadyPending 3) ∧
    attempt_miracle
      ⟨5, 1/20, 3/10, 1/2, ⟨.cancelled, 4, [1, 2, 3, 4], []⟩, []⟩
      [9, 9, 9, 9] 1 0 1 =
      (⟨5, 1/20, 3/10, 1/2, ⟨.pending, 0, [9, 9, 9, 9], []⟩, []⟩,
       .pending 1 0 5) ∧
    attempt_miracle (MiracleDecayManager.init 5 (1/20) (3/10) (1/2))
      [9, 9, 9, 9] 0 1 1 =
      (MiracleDecayManager.init 5 (1/20) (3/10) (1/2), .rejected 0 1 1) :=
  ⟨(c3_attempt_gating
      ⟨5, 1/20, 3/10, 1/2, ⟨.pending, 2, [1, 2, 3, 4], []⟩, []⟩
      [9, 9, 9, 9] 1 0 1).1 rfl,
   (c3_attempt_gating
      ⟨5, 1/20, 3/10, 1/2, ⟨.cancelled, 4, [1, 2, 3, 4], []⟩, []⟩
      [9, 9, 9, 9] 1 0 1).2.1 (by intro h; cases h) (by norm_num)
      (by norm_num),
   (c3_attempt_gating (MiracleDecayManager.init 5 (1/20) (3/10) (1/2))
      [9, 9, 9, 9] 0 1 1).2.2 (by intro h; cases h) (by norm_num)⟩

/-- C8 (confirmed). For every state whose phase is not PENDING, `tick` is
a no-op: the manager — phase, `turns_elapsed`, `decay_log` and `history`
included — is returned unchanged together with the current phase and
`action = none`. -/
theorem c8_tick_requires_pending (expf : ℚ → ℚ) (m : MiracleDecayManager)
    (ints : List ℚ) (d : ℚ) (h : m.state.phase ≠ .pending) :
    tick expf m ints d = (m, .noop m.state.phase) := by
  simp [tick, h]

/-- Closed instance of the C8 theorem: a CONFIRMED manager with nonempty
logs is untouched by `tick`. -/
theorem c8_witness :
    tick (fun _ => 1)
      ⟨5, 1/20, 3/10, 1/2, ⟨.confirmed, 5, [1, 2, 3, 4],
        [.confirmEv [1, 2, 3, 4] [1] (3/10)]⟩,
       [.confirmEv [1, 2, 3, 4] [1] (3/10)]⟩ [1, 2, 3, 4] 9 =
      (⟨5, 1/20, 3/10, 1/2, ⟨.confirmed, 5, [1, 2, 3, 4],
        [.confirmEv [1, 2, 3, 4] [1] (3/10)]⟩,
       [.confirmEv [1, 2, 3, 4] [1] (3/10)]⟩, .noop .confirmed) :=
  c8_tick_requires_pending (fun _ => 1)
    ⟨5, 1/20, 3/10, 1/2, ⟨.confirmed, 5, [1, 2, 3, 4],
      [.confirmEv [1, 2, 3, 4] [1] (3/10)]⟩,
     [.confirmEv [1, 2, 3, 4] [1] (3/10)]⟩ [1, 2, 3, 4] 9
    (by intro h; cases h)

/-- C9 (confirmed). The cumulative `history` is append-only across the
manager's lifetime: every `attempt_miracle`, `tick` and `reset` leaves the
existing records in place, extending the list by a (possibly empty)
suffix; `reset` returns the phase to NONE while leaving `history` exactly
intact. -/
theorem c9_history_append_only (m : MiracleDecayManager) :
    (∀ ints g gm v, ∃ t,
      (attempt_miracle m ints g gm v).1.history = m.history ++ t) ∧
    (∀ expf ints d, ∃ t, (tick expf m ints d).1.history = m.history ++ t) ∧
    (reset m).history = m.history ∧
    (reset m).state.phase = .none := by
  refine ⟨fun ints g gm v => ?_, fun expf ints d => ?_, rfl, rfl⟩
  · unfold attempt_miracle
    split_ifs <;> exact ⟨[], by simp⟩
  · by_cases hp : m.state.phase = .pending
    · by_cases hd : d > m.theta_cancel
      · rw [tick_cancel expf m ints d hp hd]
        exact ⟨_, rfl⟩
      · by_cases hk : m.k_max ≤ m.state.turns_elapsed + 1
        · rw [tick_confirm expf m ints d hp (not_lt.mp hd) hk]
          exact ⟨_, rfl⟩
        · rw [tick_monitor expf m ints d hp (not_lt.mp hd) (by omega)]
          exact ⟨[], by simp⟩
    · rw [tick_noop expf m ints d hp]
      exact ⟨[], by simp⟩

/-- C10 (confirmed). The cumulative history receives a record only at the
terminal transitions: `attempt_miracle` (successful or not) appends
nothing to `history` and a successful admission clears the per-cycle
`decay_log`; a no-op or monitoring `tick` leaves `history` unchanged, the
monitoring tick appending only its entry to the per-cycle `decay_log`; the
cancel/hijack tick and the confirming tick each append exactly one record
to `history`; `reset` keeps `history` and discards the per-cycle log;
consequently a Pending cycle admitted from Idle and ended by `reset`
before completion leaves `get_history` exactly as before the cycle. -/
theorem c10_history_only_terminal (m : MiracleDecayManager) :
    (∀ ints g gm v, (attempt_miracle m ints g gm v).1.history = m.history) ∧
    (∀ ints g gm v, m.state.phase ≠ .pending → g > gm → v > 7/10 →
      (attempt_miracle m ints g gm v).1.state.decay_log = []) ∧
    (∀ expf ints d, m.state.phase ≠ .pending →
      (tick expf m ints d).1.history = m.history) ∧
    (∀ expf ints d, m.state.phase = .pending → d ≤ m.theta_cancel →
      m.state.turns_elapsed + 1 < m.k_max →
      (tick expf m ints d).1.history = m.history ∧
      (tick expf m ints d).1.state.decay_log = m.state.decay_log ++
        [DecayEvent.tickEv (m.state.turns_elapsed + 1) d
          (decayFactor expf m.kappa (m.state.turns_elapsed + 1))
          (m.state.initial_integrals.map
            (fun x => x * decayFactor expf m.kappa (m.state.turns_elapsed + 1)))]) ∧
    (∀ expf ints d, m.state.phase = .pending → d > m.theta_cancel →
      (tick expf m ints d).1.history = m.history ++
        [DecayEvent.cancelEv (m.state.turns_elapsed + 1) d m.theta_cancel
          (decide (m.state.turns_elapsed + 1 ≤ m.k_max / 2)) true]) ∧
    (∀ expf ints d, m.state.phase = .pending → d ≤ m.theta_cancel →
      m.k_max ≤ m.state.turns_elapsed + 1 →
      (tick expf m ints d).1.history = m.history ++
        [DecayEvent.confirmEv m.state.initial_integrals
          (m.state.initial_integrals.map (fun x => x * (1 - m.rho))) m.rho]) ∧
    ((reset m).history = m.history ∧ (reset m).state.decay_log = []) ∧
    (∀ expf baseline ints g gm v ds, m.state.phase = .none → g > gm →
      v > 7/10 → (∀ x ∈ ds, x ≤ m.theta_cancel) → ds.length < m.k_max →
      get_history (reset (runTicks expf ints
        (attempt_miracle m baseline g gm v).1 ds).1) = get_history m) := by
  refine ⟨?_, ?_, ?_, ?_, ?_, ?_, ⟨rfl, rfl⟩, ?_⟩
  · intro ints g gm v
    unfold attempt_miracle
    split_ifs <;> rfl
  · intro ints g gm v hp hg hv
    rw [attempt_success m ints g gm v hp hg hv]
  · intro expf ints d hp
    rw [tick_noop expf m ints d hp]
  · intro expf ints d hp hd ht
    rw [tick_monitor expf m ints d hp hd ht]
    exact ⟨rfl, rfl⟩
  · intro expf ints d hp hd
    rw [tick_cancel expf m ints d hp hd]
  · intro expf ints d hp hd hk
    rw [tick_confirm expf m ints d hp hd hk]
  · intro expf baseline ints g gm v ds hidle hg hv hall hlt
    have hp : m.state.phase ≠ .pending := by rw [hidle]; intro h; cases h
    rw [attempt_success m baseline g gm v hp hg hv]
    obtain ⟨i1, i2, i3, i4, i5, i6, i7, i8, i9, i10⟩ :=
      runTicks_monitor expf ints ds
        { m with state := ⟨.pending, 0, baseline, []⟩ } rfl hall
        (by simpa using hlt)
    show (runTicks expf ints _ ds).1.history = m.history
    exact i8

/-- Closed instance of the C10 theorem: admit a cycle from Idle, run two
monitoring ticks, then `reset`: the cumulative history is exactly what it
was before the cycle. -/
theorem c10_witness :
    get_history (reset (runTicks (fun _ => 1) [1, 2, 3, 4]
      (attempt_miracle (MiracleDecayManager.init 5 (1/20) (3/10) (1/2))
        [1, 2, 3, 4] 1 0 1).1 [0, 0]).1) =
      get_history (MiracleDecayManager.init 5 (1/20) (3/10) (1/2)) :=
  (c10_history_only_terminal
    (MiracleDecayManager.init 5 (1/20) (3/10) (1/2))).2.2.2.2.2.2.2
    (fun _ => 1) [1, 2, 3, 4] [1, 2, 3, 4] 1 0 1 [0, 0] rfl (by norm_num)
    (by norm_num)
    (by intro x hx; fin_cases hx <;> norm_num [MiracleDecayManager.init])
    (by norm_num [MiracleDecayManager.init])

/-- The Euclidean-norm characterization determines the distance uniquely. -/
theorem norm_unique {d e c : ℚ} (hd : 0 ≤ d) (hd2 : d * d = c) (he : 0 ≤ e)
    (he2 : e * e = c) : d = e :=
  (mul_self_inj_of_nonneg hd he).mp (hd2.trans he2.symm)

/-- The pointwise difference of a vector with itself has zero sum of
squares. -/
theorem sumSq_self (l : List ℚ) :
    sumSq (List.zipWith (fun a b => a - b) l l) = 0 := by
  induction l with
  | nil => rfl
  | cons a l ih => simp [sumSq] at ih ⊢

/-- When observed equals predicted, the Euclidean distance is zero. -/
theorem dist_self_eq_zero (obs : List ℚ) (d : ℚ) (h : IsDist d obs obs) :
    d = 0 := by
  obtain ⟨v, hv, hd0, hdd⟩ := h
  rw [diffVec, if_pos rfl] at hv
  have hv' : List.zipWith (fun a b => a - b) obs obs = v := Option.some.inj hv
  rw [← hv', sumSq_self] at hdd
  exact mul_self_eq_zero.mp hdd

/-- A deterministic characterization of repeated updates: when every
possible single update equals applying `f`, an `n`-fold update sequence
equals `n`-fold iteration of `f`. -/
theorem updateSeq_iterate (obs pred : List ℚ)
    (f : AnomalyTracker → AnomalyTracker)
    (hf : ∀ s s', UpdateAnomaly s obs pred s' → s' = f s) :
    ∀ n t t', UpdateSeq obs pred t n t' → t' = f^[n] t := by
  intro n t t' h
  induction h with
  | zero => rfl
  | succ s' s'' k hseq hupd ih =>
    rw [hf s' s'' hupd, ih, Function.iterate_succ_apply']

/-- C5 (confirmed). For `a_anom ≥ 0`, `alpha > 0`, `g0 ∈ [0, 1)`:
`calculate_g_min` lies in `[g0, 1)` — in particular it never equals 1 for
any finite `a_anom` — and is strictly increasing as a function of
`a_anom`. -/
theorem c5_dynamic_threshold (t : AnomalyTracker) (ha : 0 ≤ t.a_anom)
    (halpha : 0 < t.alpha) (hg0 : 0 ≤ t.g0) (hg1 : t.g0 < 1) :
    t.g0 ≤ calculate_g_min t ∧ calculate_g_min t < 1 ∧
    ∀ t' : AnomalyTracker, t'.g0 = t.g0 → t'.alpha = t.alpha →
      t.a_anom < t'.a_anom → calculate_g_min t < calculate_g_min t' := by
  obtain ⟨tau, g0, alpha, a⟩ := t
  simp only [calculate_g_min] at *
  have hden : 0 < a + alpha := by linarith
  have hfrac0 : 0 ≤ a / (a + alpha) := div_nonneg ha hden.le
  have hfrac1 : a / (a + alpha) < 1 := (div_lt_one hden).mpr (by linarith)
  have hg1' : (0:ℚ) < 1 - g0 := by linarith
  refine ⟨?_, ?_, ?_⟩
  · nlinarith [mul_nonneg hg1'.le hfrac0]
  · nlinarith [mul_lt_mul_of_pos_left hfrac1 hg1']
  · intro t' hgeq haeq hlt
    obtain ⟨tau', g0', alpha', a'⟩ := t'
    simp only at hgeq haeq hlt
    simp only [calculate_g_min]
    rw [hgeq, haeq]
    have hden' : 0 < a' + alpha := by linarith
    have hmono : a / (a + alpha) < a' / (a' + alpha) := by
      rw [div_lt_div_iff₀ hden hden']
      nlinarith [mul_lt_mul_of_pos_right hlt halpha]
    nlinarith [mul_lt_mul_of_pos_left hmono hg1']

/-- Closed instance of the C5 theorem at `tau = 1/5, g0 = 2/5, alpha = 1,
a_anom = 3`. -/
theorem c5_witness :
    (2/5 : ℚ) ≤ calculate_g_min ⟨1/5, 2/5, 1, 3⟩ ∧
    calculate_g_min ⟨1/5, 2/5, 1, 3⟩ < 1 ∧
    ∀ t' : AnomalyTracker, t'.g0 = 2/5 → t'.alpha = 1 →
      (3 : ℚ) < t'.a_anom →
      calculate_g_min ⟨1/5, 2/5, 1, 3⟩ < calculate_g_min t' :=
  c5_dynamic_threshold ⟨1/5, 2/5, 1, 3⟩ (by norm_num) (by norm_num)
    (by norm_num) (by norm_num)

/-- C6 (confirmed). Pure forgetting: for any starting tracker with
`tau ∈ (0,1)` and `a_anom ≥ 0`, `N` successive `update_anomaly` calls with
`observed = predicted` (Euclidean distance 0) leave every parameter fixed
and scale the anomaly score to `a_anom · (1 − tau)^N`. -/
theorem c6_pure_forgetting (obs : List ℚ) (t t' : AnomalyTracker) (N : ℕ)
    (htau0 : 0 < t.tau) (htau1 : t.tau < 1) (ha : 0 ≤ t.a_anom)
    (hseq : UpdateSeq obs obs t N t') :
    t'.a_anom = t.a_anom * (1 - t.tau) ^ N ∧ t'.tau = t.tau ∧
    t'.g0 = t.g0 ∧ t'.alpha = t.alpha := by
  induction hseq with
  | zero => simp
  | succ s' s'' k hseq hupd ih =>
    obtain ⟨iha, iht, ihg, ihal⟩ := ih
    obtain ⟨v, d, hv, hn, hs''⟩ := hupd
    have hd0 : d = 0 := dist_self_eq_zero obs d ⟨v, hv, hn⟩
    subst hd0
    subst hs''
    refine ⟨?_, iht, ihg, ihal⟩
    simp only [leakyStep, iha, iht]
    ring

/-- Closed instance of the C6 theorem: two zero-distance updates from
`a_anom = 1` with `tau = 1/5` give `a_anom = 1 · (4/5)² = 16/25`. -/
theorem c6_witness :
    ((⟨1/5, 2/5, 1, 16/25⟩ : AnomalyTracker).a_anom =
      (⟨1/5, 2/5, 1, 1⟩ : AnomalyTracker).a_anom *
        (1 - (⟨1/5, 2/5, 1, 1⟩ : AnomalyTracker).tau) ^ 2) ∧
    (⟨1/5, 2/5, 1, 16/25⟩ : AnomalyTracker).tau =
      (⟨1/5, 2/5, 1, 1⟩ : AnomalyTracker).tau ∧
    (⟨1/5, 2/5, 1, 16/25⟩ : AnomalyTracker).g0 =
      (⟨1/5, 2/5, 1, 1⟩ : AnomalyTracker).g0 ∧
    (⟨1/5, 2/5, 1, 16/25⟩ : AnomalyTracker).alpha =
      (⟨1/5, 2/5, 1, 1⟩ : AnomalyTracker).alpha :=
  c6_pure_forgetting [1, 2, 3, 4] ⟨1/5, 2/5, 1, 1⟩ ⟨1/5, 2/5, 1, 16/25⟩ 2
    (by norm_num) (by norm_num) (by norm_num)
    (.succ ⟨1/5, 2/5, 1, 4/5⟩ ⟨1/5, 2/5, 1, 16/25⟩ 1
      (.succ ⟨1/5, 2/5, 1, 1⟩ ⟨1/5, 2/5, 1, 4/5⟩ 0 .zero
        ⟨List.zipWith (fun a b => a - b) [1, 2, 3, 4] [1, 2, 3, 4], 0,
         by rw [diffVec, if_pos rfl],
         ⟨le_refl 0, by rw [sumSq_self]; norm_num⟩,
         by norm_num [leakyStep, AnomalyTracker.mk.injEq]⟩)
      ⟨List.zipWith (fun a b => a - b) [1, 2, 3, 4] [1, 2, 3, 4], 0,
       by rw [diffVec, if_pos rfl],
       ⟨le_refl 0, by rw [sumSq_self]; norm_num⟩,
       by norm_num [leakyStep, AnomalyTracker.mk.injEq]⟩)

/-- C4 counterexample. The claim says a dimension mismatch fails with a
structured `InvalidDimension` error and leaves `a_anom` unchanged. The
code performs no dimension validation: a length-1 `observed` against the
fixed length-4 `predicted` is silently broadcast by numpy, the update
succeeds, and `a_anom` changes from 0 to 3/25. -/
theorem c4_counterexample :
    ([1/2] : List ℚ).length ≠ 4 ∧
    ([1/2] : List ℚ).length ≠ ([4/5, 4/5, 4/5, 4/5] : List ℚ).length ∧
    UpdateAnomaly ⟨1/5, 2/5, 1, 0⟩ [1/2] [4/5, 4/5, 4/5, 4/5]
      ⟨1/5, 2/5, 1, 3/25⟩ ∧
    (⟨1/5, 2/5, 1, 3/25⟩ : AnomalyTracker).a_anom ≠
      (⟨1/5, 2/5, 1, 0⟩ : AnomalyTracker).a_anom := by
  refine ⟨by norm_num, by norm_num, ?_, by norm_num⟩
  refine ⟨[-(3/10), -(3/10), -(3/10), -(3/10)], 3/5, ?_,
    ⟨by norm_num, ?_⟩, ?_⟩
  · rw [diffVec]
    norm_num
  · norm_num [sumSq]
  · norm_num [leakyStep, AnomalyTracker.mk.injEq]

/-- C4 (amended). `update_anomaly` performs no dimension validation and
knows nothing of the fixed dimension 4: exactly the numpy-broadcastable
1-D shape pairs (equal lengths, or either operand of length 1) are
accepted, the update then mutating only `a_anom` by the leaky-integrator
rule on the broadcast difference; only non-broadcastable pairs fail — as
an unstructured numpy `ValueError`, not a structured `InvalidDimension` —
with no update possible. -/
theorem c4_no_dimension_validation (obs pred : List ℚ) :
    ((diffVec obs pred).isSome ↔
      (obs.length = pred.length ∨ obs.length = 1 ∨ pred.length = 1)) ∧
    (∀ t t' : AnomalyTracker, UpdateAnomaly t obs pred t' →
      (obs.length = pred.length ∨ obs.length = 1 ∨ pred.length = 1) ∧
      t'.tau = t.tau ∧ t'.g0 = t.g0 ∧ t'.alpha = t.alpha) ∧
    (diffVec obs pred = none →
      ∀ t t' : AnomalyTracker, ¬ UpdateAnomaly t obs pred t') := by
  have hiff : (diffVec obs pred).isSome ↔
      (obs.length = pred.length ∨ obs.length = 1 ∨ pred.length = 1) := by
    rw [diffVec]
    split_ifs <;> simp [*]
  refine ⟨hiff, ?_, ?_⟩
  · rintro t t' ⟨v, d, hv, hn, rfl⟩
    exact ⟨hiff.mp (by rw [hv]; rfl), rfl, rfl, rfl⟩
  · rintro hnone t t' ⟨v, d, hv, hn, rfl⟩
    rw [hnone] at hv
    cases hv

/-- Closed instance of the amended C4 theorem: the broadcastable length-1
vs length-4 pair is accepted, and a non-broadcastable length-2 vs length-3
pair admits no update at all. -/
theorem c4_witness :
    (diffVec [1/2] [4/5, 4/5, 4/5, 4/5]).isSome = true ∧
    ¬ UpdateAnomaly ⟨1/5, 2/5, 1, 0⟩ [1, 2] [1, 2, 3] ⟨1/5, 2/5, 1, 0⟩ :=
  ⟨(c4_no_dimension_validation [1/2] [4/5, 4/5, 4/5, 4/5]).1.mpr
      (Or.inr (Or.inl rfl)),
   (c4_no_dimension_validation [1, 2] [1, 2, 3]).2.2
      (by rw [diffVec]; norm_num) ⟨1/5, 2/5, 1, 0⟩ ⟨1/5, 2/5, 1, 0⟩⟩

/-- In the C7 scenario the per-step Euclidean distance is exactly 7/5:
`‖[0.1,0.1,0.1,0.1] - [0.8,0.8,0.8,0.8]‖ = √(4·0.49) = 1.4`. -/
theorem dist_obs7 (d : ℚ)
    (h : IsDist d [1/10, 1/10, 1/10, 1/10] [4/5, 4/5, 4/5, 4/5]) :
    d = 7/5 := by
  obtain ⟨v, hv, hd0, hdd⟩ := h
  norm_num [diffVec] at hv
  subst hv
  norm_num [sumSq] at hdd
  exact norm_unique hd0 hdd (by norm_num) (by norm_num)

/-- In the C7 scenario a single `update_anomaly` call acts
deterministically: the leaky-integrator step at distance 7/5. -/
theorem upd7_step (s s' : AnomalyTracker)
    (h : UpdateAnomaly s [1/10, 1/10, 1/10, 1/10] [4/5, 4/5, 4/5, 4/5] s') :
    s' = { s with a_anom := leakyStep s.tau s.a_anom (7/5) } := by
  obtain ⟨v, d, hv, hn, rfl⟩ := h
  rw [dist_obs7 d ⟨v, hv, hn⟩]

/-- One concrete C7 update step at `tau = 1/5`:
`a_anom ← (4/5)·a_anom + (1/5)·(7/5)`. -/
theorem upd7_concrete (a b : ℚ) (hb : b = 4/5 * a + 7/25) :
    UpdateAnomaly ⟨1/5, 2/5, 1, a⟩ [1/10, 1/10, 1/10, 1/10]
      [4/5, 4/5, 4/5, 4/5] ⟨1/5, 2/5, 1, b⟩ :=
  ⟨List.zipWith (fun x y => x - y) [1/10, 1/10, 1/10, 1/10]
      [4/5, 4/5, 4/5, 4/5], 7/5,
   by norm_num [diffVec],
   ⟨by norm_num, by norm_num [sumSq]⟩,
   by norm_num [leakyStep, AnomalyTracker.mk.injEq, hb]⟩

/-- C7 counterexample. Running the claimed scenario (`tau = 0.2`,
`g0 = 0.4`, `alpha = 1`, `a_anom` from 0, five updates at distance 1.4)
gives `a_anom = 7/5·(1 − 0.8⁵) = 0.941248` — the claim's own closed form,
but more than 0.4 away from the `≈ 1.3417` it asserts — and
`g_min = 20957/30332 ≈ 0.6909`, more than 0.05 away from the asserted
`≈ 0.744`. -/
theorem c7_counterexample :
    UpdateSeq [1/10, 1/10, 1/10, 1/10] [4/5, 4/5, 4/5, 4/5]
      ⟨1/5, 2/5, 1, 0⟩ 5 ⟨1/5, 2/5, 1, 14707/15625⟩ ∧
    (14707/15625 : ℚ) = 7/5 * (1 - (4/5)^5) ∧
    |(14707/15625 : ℚ) - 13417/10000| > 1/3 ∧
    calculate_g_min ⟨1/5, 2/5, 1, 14707/15625⟩ = 20957/30332 ∧
    |(20957/30332 : ℚ) - 744/1000| > 1/25 := by
  refine ⟨?_, by norm_num, ?_, by norm_num [calculate_g_min], ?_⟩
  · exact .succ ⟨1/5, 2/5, 1, 2583/3125⟩ ⟨1/5, 2/5, 1, 14707/15625⟩ 4
      (.succ ⟨1/5, 2/5, 1, 427/625⟩ ⟨1/5, 2/5, 1, 2583/3125⟩ 3
        (.succ ⟨1/5, 2/5, 1, 63/125⟩ ⟨1/5, 2/5, 1, 427/625⟩ 2
          (.succ ⟨1/5, 2/5, 1, 7/25⟩ ⟨1/5, 2/5, 1, 63/125⟩ 1
            (.succ ⟨1/5, 2/5, 1, 0⟩ ⟨1/5, 2/5, 1, 7/25⟩ 0 .zero
              (upd7_concrete 0 (7/25) (by norm_num)))
            (upd7_concrete (7/25) (63/125) (by norm_num)))
          (upd7_concrete (63/125) (427/625) (by norm_num)))
        (upd7_concrete (427/625) (2583/3125) (by norm_num)))
      (upd7_concrete (2583/3125) (14707/15625) (by norm_num))
  · rw [abs_of_nonpos (by norm_num)]
    norm_num
  · rw [abs_of_nonpos (by norm_num)]
    norm_num

/-- C7 (amended). With `tau = 1/5, g0 = 2/5, alpha = 1` and `a_anom = 0`,
after 5 `update_anomaly` calls with `observed = [0.1,0.1,0.1,0.1]` and
`predicted = [0.8,0.8,0.8,0.8]` (Euclidean distance exactly 1.4 each
step), the anomaly score equals the claim's closed form
`1.4·(1 − 0.8⁵)`, whose value is `0.941248` exactly — not `≈ 1.3417` —
and the dynamic threshold equals `20957/30332 ≈ 0.6909`, not `≈ 0.744`. -/
theorem c7_scenario (t' : AnomalyTracker)
    (hseq : UpdateSeq [1/10, 1/10, 1/10, 1/10] [4/5, 4/5, 4/5, 4/5]
      ⟨1/5, 2/5, 1, 0⟩ 5 t') :
    t'.a_anom = 7/5 * (1 - (4/5)^5) ∧ t'.a_anom = 14707/15625 ∧
    calculate_g_min t' = 20957/30332 := by
  have he := updateSeq_iterate [1/10, 1/10, 1/10, 1/10] [4/5, 4/5, 4/5, 4/5]
    (fun s => { s with a_anom := leakyStep s.tau s.a_anom (7/5) })
    upd7_step 5 ⟨1/5, 2/5, 1, 0⟩ t' hseq
  subst he
  norm_num [Function.iterate_succ, Function.iterate_zero, Function.comp,
    leakyStep, calculate_g_min]

/-- Closed instance of the amended C7 theorem, at the explicit five-step
run of the scenario. -/
theorem c7_witness :
    (⟨1/5, 2/5, 1, 14707/15625⟩ : AnomalyTracker).a_anom =
      7/5 * (1 - (4/5)^5) ∧
    (⟨1/5, 2/5, 1, 14707/15625⟩ : AnomalyTracker).a_anom = 14707/15625 ∧
    calculate_g_min ⟨1/5, 2/5, 1, 14707/15625⟩ = 20957/30332 :=
  c7_scenario ⟨1/5, 2/5, 1, 14707/15625⟩
    (.succ ⟨1/5, 2/5, 1, 2583/3125⟩ ⟨1/5, 2/5, 1, 14707/15625⟩ 4
      (.succ ⟨1/5, 2/5, 1, 427/625⟩ ⟨1/5, 2/5, 1, 2583/3125⟩ 3
        (.succ ⟨1/5, 2/5, 1, 63/125⟩ ⟨1/5, 2/5, 1, 427/625⟩ 2
          (.succ ⟨1/5, 2/5, 1, 7/25⟩ ⟨1/5, 2/5, 1, 63/125⟩ 1
            (.succ ⟨1/5, 2/5, 1, 0⟩ ⟨1/5, 2/5, 1, 7/25⟩ 0 .zero
              (upd7_concrete 0 (7/25) (by norm_num)))
            (upd7_concrete (7/25) (63/125) (by norm_num)))
          (upd7_concrete (63/125) (427/625) (by norm_num)))
        (upd7_concrete (427/625) (2583/3125) (by norm_num)))
      (upd7_concrete (2583/3125) (14707/15625) (by norm_num)))
